import Mathlib

/-!
# Verification of the album-studio aspect-locked crop geometry engine

Shallow embedding of the crop geometry core of the repository:
* `src/ui/widgets/crop_overlay.py` (`CropOverlay._resize_from_corner`,
  `CropOverlay._constrain_to_bounds`, the drag branch of `mouseMoveEvent`),
* `src/services/crop_service.py` (`CropService.get_crop_dimensions`,
  `CropService.crop_image`, `CropWorker.run`),
* `src/models/config.py` (`Config.parse_size_ratio`, `Config.validate_size_id`),
* `src/models/image_item.py` (`ImageItem.set_tags`, `ImageItem.clear_tags`),
* `src/ui/widgets/image_grid.py` (`ImageThumbnail._apply_crop_box_to_overlay`,
  `ImageThumbnail._save_crop_from_overlay`).

Python machine integers are modelled as `Int`, Python floats as `ℚ`
(the geometry only uses +, -, *, /, comparisons), and Python's `int()`
truncation toward zero as `pyInt`.  Qt `QRect` conventions are kept:
a rectangle is stored as `(x, y, w, h)` and `right = x + w - 1`,
`bottom = y + h - 1`, exactly as in Qt.
-/

set_option autoImplicit false

namespace AlbumStudio

/-- Python `int()` applied to a float: truncation toward zero. -/
def pyInt (q : ℚ) : Int := if q < 0 then ⌈q⌉ else ⌊q⌋

/-- An integer rectangle `(x, y, width, height)`, Qt `QRect` style. -/
structure Rect where
  x : Int
  y : Int
  w : Int
  h : Int
deriving Repr, DecidableEq

/-- Qt `QRect.right()`: `x + width - 1`. -/
def Rect.right (r : Rect) : Int := r.x + r.w - 1

/-- Qt `QRect.bottom()`: `y + height - 1`. -/
def Rect.bottom (r : Rect) : Int := r.y + r.h - 1

/-- `r` lies fully inside `b` (same fact whether stated on closed pixel
spans `[x, x+w-1]` or half-open spans `[x, x+w)`). -/
def containedIn (r b : Rect) : Prop :=
  b.x ≤ r.x ∧ b.y ≤ r.y ∧ r.x + r.w ≤ b.x + b.w ∧ r.y + r.h ≤ b.y + b.h

instance (r b : Rect) : Decidable (containedIn r b) := by
  unfold containedIn; infer_instance

/-- The four draggable corners of the crop overlay. -/
inductive Corner where
  | topLeft
  | topRight
  | bottomLeft
  | bottomRight
deriving Repr, DecidableEq

/-- Size computation shared by the four corner branches of
`CropOverlay._resize_from_corner`: raw candidate sizes
`new_width = max(min_size, start_w + wd)`, `new_height = max(min_size, start_h + hd)`,
then the ratio tie-break on `height_for_width = new_width / ratio` versus
`new_height`, flooring the derived dimension with `int()`. -/
def resizeSize (ms : Int) (ar : ℚ) (sw sh wd hd : Int) : Int × Int :=
  if ((max ms (sw + wd) : Int) : ℚ) / ar ≤ ((max ms (sh + hd) : Int) : ℚ) then
    (max ms (sw + wd), pyInt (((max ms (sw + wd) : Int) : ℚ) / ar))
  else
    (pyInt (((max ms (sh + hd) : Int) : ℚ) * ar), max ms (sh + hd))

/-- Per-corner sign convention of `_resize_from_corner` mapping the mouse
delta to `(width_delta, height_delta)`. -/
def cornerDeltas (c : Corner) (dx dy : Int) : Int × Int :=
  match c with
  | .bottomRight => (dx, dy)
  | .bottomLeft => (-dx, dy)
  | .topRight => (dx, -dy)
  | .topLeft => (-dx, -dy)

/-- Position of the resized rectangle before bounds constraining, from the
`QRect` mutations in each corner branch of `_resize_from_corner`
(`setLeft(start.right() - fw)` followed by `setWidth(fw)` leaves
`x = start.x + start.w - 1 - fw`, and symmetrically for the top). -/
def cornerRect (c : Corner) (start : Rect) (fw fh : Int) : Rect :=
  match c with
  | .bottomRight => ⟨start.x, start.y, fw, fh⟩
  | .bottomLeft => ⟨start.right - fw, start.y, fw, fh⟩
  | .topRight => ⟨start.x, start.bottom - fh, fw, fh⟩
  | .topLeft => ⟨start.right - fw, start.bottom - fh, fw, fh⟩

/-- Minimum-size fixup at the top of `CropOverlay._constrain_to_bounds`:
if either dimension is below `min_size`, regrow from the limiting
dimension chosen by the sign of `aspect_ratio - 1`. -/
def minSizeFix (ms : Int) (ar : ℚ) (rc : Rect) : Rect :=
  if rc.w < ms ∨ rc.h < ms then
    if 1 ≤ ar then
      if pyInt (((max ms rc.h : Int) : ℚ) * ar) < ms then
        ⟨rc.x, rc.y, ms, pyInt ((ms : ℚ) / ar)⟩
      else
        ⟨rc.x, rc.y, pyInt (((max ms rc.h : Int) : ℚ) * ar), max ms rc.h⟩
    else
      if pyInt (((max ms rc.w : Int) : ℚ) / ar) < ms then
        ⟨rc.x, rc.y, pyInt ((ms : ℚ) * ar), ms⟩
      else
        ⟨rc.x, rc.y, max ms rc.w, pyInt (((max ms rc.w : Int) : ℚ) / ar)⟩
  else rc

/-- Proportional shrink of `CropOverlay._constrain_to_bounds`: when the
rectangle exceeds the image bounds in either dimension, replace its size by
the fit-by-width / fit-by-height candidate that fits. -/
def shrinkToBounds (ar : ℚ) (b : Rect) (rc : Rect) : Rect :=
  if rc.w > b.w ∨ rc.h > b.h then
    if pyInt ((b.w : ℚ) / ar) ≤ b.h then ⟨rc.x, rc.y, b.w, pyInt ((b.w : ℚ) / ar)⟩
    else ⟨rc.x, rc.y, pyInt ((b.h : ℚ) * ar), b.h⟩
  else rc

/-- The four sequential position clamps shared by `_constrain_to_bounds`
and the drag branch of `mouseMoveEvent`.  The right/bottom clamps use Qt
semantics literally: `moveLeft(bounds.right() - width)`, i.e.
`x := bounds.x + bounds.w - 1 - w`. -/
def clampPos (b : Rect) (rc : Rect) : Rect :=
  let x1 : Int := if rc.x < b.x then b.x else rc.x
  let y1 : Int := if rc.y < b.y then b.y else rc.y
  let x2 : Int := if x1 + rc.w - 1 > b.right then b.right - rc.w else x1
  let y2 : Int := if y1 + rc.h - 1 > b.bottom then b.bottom - rc.h else y1
  ⟨x2, y2, rc.w, rc.h⟩

/-- `CropOverlay._constrain_to_bounds`. -/
def constrainToBounds (ms : Int) (ar : ℚ) (b : Rect) (rc : Rect) : Rect :=
  clampPos b (shrinkToBounds ar b (minSizeFix ms ar rc))

/-- `CropOverlay._resize_from_corner` (including its final
`_constrain_to_bounds` pass): `dx, dy` is `current_pos - resize_start_pos`. -/
def resizeFromCorner (ms : Int) (ar : ℚ) (b : Rect) (c : Corner)
    (start : Rect) (dx dy : Int) : Rect :=
  let d := cornerDeltas c dx dy
  let s := resizeSize ms ar start.w start.h d.1 d.2
  constrainToBounds ms ar b (cornerRect c start s.1 s.2)

/-- The drag branch of `CropOverlay.mouseMoveEvent`: translate the start
rectangle by the mouse delta, then the same four position clamps. -/
def translateGesture (b : Rect) (start : Rect) (dx dy : Int) : Rect :=
  clampPos b ⟨start.x + dx, start.y + dy, start.w, start.h⟩

/-- Core of `CropService.get_crop_dimensions` (after the size-tag lookup):
largest crop of quotient `ar` fitting a `iw × ih` image.  Fit-by-width
candidate `(iw, int(iw / ar))` is chosen when its height does not exceed
`ih`, else fit-by-height `(int(ih * ar), ih)`. -/
def get_crop_dimensions (ar : ℚ) (iw ih : Int) : Int × Int :=
  if pyInt ((iw : ℚ) / ar) ≤ ih then (iw, pyInt ((iw : ℚ) / ar))
  else (pyInt ((ih : ℚ) * ar), ih)

/-- A crop box `{x, y, width, height}` as persisted on an image record. -/
structure CropBox where
  x : Int
  y : Int
  width : Int
  height : Int
deriving Repr, DecidableEq

/-- `ImageThumbnail._apply_crop_box_to_overlay`: convert a source-space crop
box to preview (thumbnail) space.  `iw × ih` are the source dimensions,
`tw × th` the thumbnail dimensions, `(px, py)` the letterbox centering offset
of the pixmap inside the label (`_get_pixmap_rect`).  Scale factors are the
floats `thumb / img`; position gets the offset added, size does not. -/
def apply_crop_box_to_overlay (iw ih tw th px py : Int) (b : CropBox) : CropBox :=
  ⟨pyInt ((b.x : ℚ) * ((tw : ℚ) / (iw : ℚ))) + px,
   pyInt ((b.y : ℚ) * ((th : ℚ) / (ih : ℚ))) + py,
   pyInt ((b.width : ℚ) * ((tw : ℚ) / (iw : ℚ))),
   pyInt ((b.height : ℚ) * ((th : ℚ) / (ih : ℚ)))⟩

/-- `ImageThumbnail._save_crop_from_overlay`: convert an overlay rectangle
back to source space with the inverse scale factors `img / thumb`,
subtracting the centering offset from the position first. -/
def save_crop_from_overlay (iw ih tw th px py : Int) (o : CropBox) : CropBox :=
  ⟨pyInt (((o.x - px : Int) : ℚ) * ((iw : ℚ) / (tw : ℚ))),
   pyInt (((o.y - py : Int) : ℚ) * ((ih : ℚ) / (th : ℚ))),
   pyInt ((o.width : ℚ) * ((iw : ℚ) / (tw : ℚ))),
   pyInt ((o.height : ℚ) * ((ih : ℚ) / (th : ℚ)))⟩

/-! ### Size-identifier parsing (`src/models/config.py`) -/

/-- The two failure modes of `Config.parse_size_ratio` (both raised as
`ValueError` with distinct messages). -/
inductive SizeErr where
  | invalidFormat
  | degenerateRatio
deriving Repr, DecidableEq

/-- Value of a run of ASCII digit characters, as Python's `int()`. -/
def digitsVal (l : List Char) : ℕ :=
  l.foldl (fun a c => 10 * a + (c.toNat - 48)) 0

/-- `Config.parse_size_ratio`, over `List Char` (`\d` modelled as ASCII
digits).  Python's `re.match(r'(\d+)x(\d+)', s, re.IGNORECASE)` anchors at
the start only, so each `(\d+)` is the maximal digit run and anything after
the second run is ignored.  Returns `width / height` as an exact rational. -/
def parse_size_tag (s : List Char) : Except SizeErr ℚ :=
  if (s.takeWhile Char.isDigit).isEmpty then .error .invalidFormat
  else
    match s.dropWhile Char.isDigit with
    | [] => .error .invalidFormat
    | c :: rest =>
      if c = 'x' ∨ c = 'X' then
        if (rest.takeWhile Char.isDigit).isEmpty then .error .invalidFormat
        else if digitsVal (rest.takeWhile Char.isDigit) = 0 then
          .error .degenerateRatio
        else
          .ok ((digitsVal (s.takeWhile Char.isDigit) : ℚ) /
               (digitsVal (rest.takeWhile Char.isDigit) : ℚ))
      else .error .invalidFormat

/-- `Config.validate_size_id`: `re.match(r'^\d+x\d+$', s, re.IGNORECASE)`.
With Python `re.match` the `$` also accepts one trailing newline. -/
def validate_size_id (s : List Char) : Bool :=
  !(s.takeWhile Char.isDigit).isEmpty &&
    match s.dropWhile Char.isDigit with
    | c :: rest =>
      (c = 'x' || c = 'X') &&
        !(rest.takeWhile Char.isDigit).isEmpty &&
        ((rest.dropWhile Char.isDigit).isEmpty ||
          rest.dropWhile Char.isDigit = ['\n'])
    | [] => false

/-- Rendering of the spec claim's fully anchored pattern `^\d+x\d+$`
(case-insensitive `x`, strict full match): digits, one `x`/`X`, digits,
nothing else.  Used to compare the claimed behaviour against
`parse_size_tag`, whose pattern is start-anchored only. -/
def specAnchoredFormat (s : List Char) : Bool :=
  !(s.takeWhile Char.isDigit).isEmpty &&
    match s.dropWhile Char.isDigit with
    | c :: rest =>
      (c = 'x' || c = 'X') && !rest.isEmpty && rest.all Char.isDigit
    | [] => false

/-- A string that begins with `\d+[xX]\d+` — the start-anchored,
unanchored-at-end format accepted by
`re.match(r'(\d+)x(\d+)', s, re.IGNORECASE)`.  Stated independently of the
parser, as an explicit decomposition: a nonempty digit run, one `x`/`X`,
a nonempty digit run, then anything. -/
def startsWithSizeFormat (s : List Char) : Prop :=
  ∃ d1 c d2 rest, s = d1 ++ c :: (d2 ++ rest) ∧ d1 ≠ [] ∧ d2 ≠ [] ∧
    (∀ a ∈ d1, a.isDigit) ∧ (∀ a ∈ d2, a.isDigit) ∧ (c = 'x' ∨ c = 'X')

/-! ### Image records (`src/models/image_item.py`) -/

/-- The tag/crop state of `ImageItem` relevant to crop-box lifecycle. -/
structure ImageItem where
  album_tag : Option (List Char)
  size_tag : Option (List Char)
  crop_box : Option CropBox
  is_cropped : Bool
deriving Repr, DecidableEq

/-- `ImageItem.set_tags`: sets whichever tags are supplied.  It does not
touch `crop_box`. -/
def ImageItem.set_tags (it : ImageItem) (album size : Option (List Char)) :
    ImageItem :=
  match size with
  | some s =>
    { (match album with
       | some a => { it with album_tag := some a }
       | none => it) with size_tag := some s }
  | none =>
    match album with
    | some a => { it with album_tag := some a }
    | none => it

/-- `ImageItem.clear_tags`: clears both tags and the crop box. -/
def ImageItem.clear_tags (it : ImageItem) : ImageItem :=
  { it with album_tag := none, size_tag := none, crop_box := none }

/-! ### Crop execution (`src/services/crop_service.py`) -/

/-- `Config.get_size_info` composed with the guards at the top of
`CropService.get_crop_dimensions`: `None` when the tag does not parse (the
`sizes.json` fallback is empty by default) or when the parsed ratio is falsy
(`0.0`), otherwise the maximal-fit target dimensions. -/
def get_size_dims (tag : List Char) (iw ih : Int) : Option (Int × Int) :=
  match parse_size_tag tag with
  | .error _ => none
  | .ok ar => if ar = 0 then none else some (get_crop_dimensions ar iw ih)

/-- What `CropService.crop_image` writes for one successfully decoded image:
the region handed to `img.crop` and the exact dimensions handed to
`resize` — PIL's `resize((w, h))` returns a bitmap of exactly that size and
`save` writes it unchanged. -/
structure SavedOutput where
  box : CropBox
  outWidth : Int
  outHeight : Int
deriving Repr, DecidableEq

/-- Geometry pipeline of `CropService.crop_image` on a decoded `iw × ih`
image: resolve target dimensions from the size tag, take the crop region
from the manual box verbatim when present (`smart` abstracts the smartcrop
result used otherwise), and resize to exactly the target dimensions.
`none` models the `return False` when no dimensions can be resolved. -/
def crop_image (tag : List Char) (iw ih : Int) (manual : Option CropBox)
    (smart : CropBox) : Option SavedOutput :=
  match get_size_dims tag iw ih with
  | none => none
  | some d =>
    some ⟨(match manual with | some m => m | none => smart), d.1, d.2⟩

/-! ### Batch worker (`CropWorker.run`) -/

/-- One batch item: an identifier for the image file and whether
`crop_image` succeeds on it (decode/write success). -/
structure BatchItem where
  name : ℕ
  ok : Bool
deriving Repr, DecidableEq

/-- Observable behaviour of one `CropWorker.run` invocation.
`progress` records the `progress_updated.emit(i+1, total, filename)` events,
`written` the output files actually written (successful items), `finished`
the single `finished_signal.emit(count)` payload, and `cancelObserved`
whether the early-return branch that observes `self.cancelled` was taken
(internal control flow; the emitted signals carry no such flag). -/
structure RunTrace where
  progress : List (ℕ × ℕ × ℕ)
  written : List ℕ
  finished : ℕ
  cancelObserved : Bool
deriving Repr, DecidableEq

/-- The loop of `CropWorker.run`: `cancel i` is the value of
`self.cancelled` observed at the top of iteration `i`; the flag is polled
once per iteration, before the item is processed, never mid-item. -/
def runAux (cancel : ℕ → Bool) (total : ℕ) :
    List BatchItem → ℕ → ℕ → RunTrace
  | [], _, count => ⟨[], [], count, false⟩
  | it :: rest, i, count =>
    if cancel i then ⟨[], [], count, true⟩
    else
      let t := runAux cancel total rest (i + 1)
        (count + if it.ok then 1 else 0)
      ⟨(i + 1, total, it.name) :: t.progress,
       (if it.ok then [it.name] else []) ++ t.written,
       t.finished, t.cancelObserved⟩

/-- `CropWorker.run` over the tagged images of the project. -/
def CropWorker_run (cancel : ℕ → Bool) (items : List BatchItem) : RunTrace :=
  runAux cancel items.length items 0 0

/-- Number of items that crop successfully. -/
def okCount (l : List BatchItem) : ℕ := (l.filter (fun it => it.ok)).length

/-- Output files written for a list of items (successful items, in order). -/
def okNames (l : List BatchItem) : List ℕ :=
  (l.filter (fun it => it.ok)).map (fun it => it.name)

/-- Progress events emitted for a list of items starting at iteration `i`. -/
def progressOf (total : ℕ) : ℕ → List BatchItem → List (ℕ × ℕ × ℕ)
  | _, [] => []
  | i, it :: rest => (i + 1, total, it.name) :: progressOf total (i + 1) rest

/-! ### Arithmetic facts about `pyInt` and the possible output sizes -/

lemma pyInt_of_nonneg {q : ℚ} (h : 0 ≤ q) : pyInt q = ⌊q⌋ := by
  unfold pyInt
  rw [if_neg (not_lt.mpr h)]

lemma pyInt_pos {q : ℚ} (h : 0 < pyInt q) : 0 ≤ q ∧ pyInt q = ⌊q⌋ := by
  by_cases hq : q < 0
  · exfalso
    have hceil : pyInt q = ⌈q⌉ := by unfold pyInt; rw [if_pos hq]
    have : ⌈q⌉ ≤ 0 := Int.ceil_le.mpr (by exact_mod_cast hq.le)
    omega
  · exact ⟨not_lt.mp hq, pyInt_of_nonneg (not_lt.mp hq)⟩

/-- Every width/height pair produced by the resize/constrain pipeline has one
dimension derived from the other by `int()`-flooring through the aspect
ratio: either the height was computed as `int(width / ratio)` or the width
as `int(height * ratio)`. -/
def GoodPair (ar : ℚ) (w h : Int) : Prop :=
  h = pyInt ((w : ℚ) / ar) ∨ w = pyInt ((h : ℚ) * ar)

lemma resizeSize_good (ms : Int) (ar : ℚ) (sw sh wd hd : Int) :
    GoodPair ar (resizeSize ms ar sw sh wd hd).1 (resizeSize ms ar sw sh wd hd).2 := by
  unfold resizeSize GoodPair
  split
  · left; rfl
  · right; rfl

lemma minSizeFix_good {ms : Int} {ar : ℚ} {rc : Rect}
    (h : GoodPair ar rc.w rc.h) :
    GoodPair ar (minSizeFix ms ar rc).w (minSizeFix ms ar rc).h := by
  unfold minSizeFix
  split
  · split
    · split
      · left; rfl
      · right; rfl
    · split
      · right; rfl
      · left; rfl
  · exact h

lemma shrinkToBounds_good {ar : ℚ} {b rc : Rect}
    (h : GoodPair ar rc.w rc.h) :
    GoodPair ar (shrinkToBounds ar b rc).w (shrinkToBounds ar b rc).h := by
  unfold shrinkToBounds
  split
  · split
    · left; rfl
    · right; rfl
  · exact h

lemma clampPos_w (b rc : Rect) : (clampPos b rc).w = rc.w := rfl

lemma clampPos_h (b rc : Rect) : (clampPos b rc).h = rc.h := rfl

lemma cornerRect_w (c : Corner) (start : Rect) (fw fh : Int) :
    (cornerRect c start fw fh).w = fw := by
  cases c <;> rfl

lemma cornerRect_h (c : Corner) (start : Rect) (fw fh : Int) :
    (cornerRect c start fw fh).h = fh := by
  cases c <;> rfl

lemma resizeFromCorner_good (ms : Int) (ar : ℚ) (b : Rect) (c : Corner)
    (start : Rect) (dx dy : Int) :
    GoodPair ar (resizeFromCorner ms ar b c start dx dy).w
      (resizeFromCorner ms ar b c start dx dy).h := by
  unfold resizeFromCorner constrainToBounds
  rw [clampPos_w, clampPos_h]
  apply shrinkToBounds_good
  apply minSizeFix_good
  rw [cornerRect_w, cornerRect_h]
  exact resizeSize_good _ _ _ _ _ _

/-- Quantitative consequence: any `GoodPair` with positive height has
quotient within `max ar 1 / h` of the ratio (the floored dimension is within
one pixel of its exact ratio-derived value). -/
lemma goodPair_ratio {ar : ℚ} {w h : Int} (har : 0 < ar) (hh : 0 < h)
    (hg : GoodPair ar w h) :
    |(w : ℚ) / (h : ℚ) - ar| < max ar 1 / (h : ℚ) := by
  have hhq : (0 : ℚ) < (h : ℚ) := by exact_mod_cast hh
  rcases hg with hg | hg
  · -- `h = int(w / ar)`
    obtain ⟨hq0, hfl⟩ := pyInt_pos (hg ▸ hh)
    rw [hfl] at hg
    have hle : (h : ℚ) ≤ (w : ℚ) / ar := hg ▸ Int.floor_le _
    have hlt : (w : ℚ) / ar < (h : ℚ) + 1 := hg ▸ Int.lt_floor_add_one _
    have hwl : (h : ℚ) * ar ≤ (w : ℚ) := (le_div_iff₀ har).mp hle
    have hwu : (w : ℚ) < ((h : ℚ) + 1) * ar := (div_lt_iff₀ har).mp hlt
    have h1 : ar ≤ (w : ℚ) / (h : ℚ) := by
      rw [le_div_iff₀ hhq]
      nlinarith
    have h2 : (w : ℚ) / (h : ℚ) < ar + ar / (h : ℚ) := by
      rw [div_lt_iff₀ hhq]
      have : ar + ar / (h : ℚ) = ((h : ℚ) + 1) * ar / (h : ℚ) := by
        field_simp; ring
      rw [this, div_mul_cancel₀ _ (ne_of_gt hhq)]
      exact hwu
    rw [abs_of_nonneg (by linarith)]
    have hmax : ar / (h : ℚ) ≤ max ar 1 / (h : ℚ) :=
      (div_le_div_iff_of_pos_right hhq).mpr (le_max_left ar 1)
    linarith
  · -- `w = int(h * ar)`
    have hq0 : (0 : ℚ) ≤ (h : ℚ) * ar := le_of_lt (mul_pos hhq har)
    rw [pyInt_of_nonneg hq0] at hg
    have hle : (w : ℚ) ≤ (h : ℚ) * ar := hg ▸ Int.floor_le _
    have hlt : (h : ℚ) * ar < (w : ℚ) + 1 := hg ▸ Int.lt_floor_add_one _
    have h1 : (w : ℚ) / (h : ℚ) ≤ ar := by
      rw [div_le_iff₀ hhq]
      nlinarith
    have h2 : ar - 1 / (h : ℚ) < (w : ℚ) / (h : ℚ) := by
      rw [lt_div_iff₀ hhq]
      have hcancel : (1 : ℚ) / (h : ℚ) * (h : ℚ) = 1 :=
        div_mul_cancel₀ 1 (ne_of_gt hhq)
      nlinarith
    rw [abs_of_nonpos (by linarith), neg_sub]
    have hmax : (1 : ℚ) / (h : ℚ) ≤ max ar 1 / (h : ℚ) :=
      (div_le_div_iff_of_pos_right hhq).mpr (le_max_right ar 1)
    linarith

/-! ### C1: ratio preservation under corner resize -/

/-- C1, counterexample: resizing the bottom-right corner of the `500 × 50`
box at ratio `10` by `delta = (49, 5)` (with `min_size = 50` and ample
bounds) returns the `549 × 54` rectangle: its quotient misses the ratio by
`1/6`, far more than the claimed `1/min(width, height) = 1/54`. -/
theorem resize_ratio_claim_false :
    resizeFromCorner 50 10 ⟨0, 0, 10000, 10000⟩ .bottomRight
        ⟨0, 0, 500, 50⟩ 49 5 = ⟨0, 0, 549, 54⟩ ∧
    ¬ (|((resizeFromCorner 50 10 ⟨0, 0, 10000, 10000⟩ .bottomRight
            ⟨0, 0, 500, 50⟩ 49 5).w : ℚ) /
          ((resizeFromCorner 50 10 ⟨0, 0, 10000, 10000⟩ .bottomRight
            ⟨0, 0, 500, 50⟩ 49 5).h : ℚ) - 10| <
        1 / min ((resizeFromCorner 50 10 ⟨0, 0, 10000, 10000⟩ .bottomRight
            ⟨0, 0, 500, 50⟩ 49 5).w : ℚ)
          ((resizeFromCorner 50 10 ⟨0, 0, 10000, 10000⟩ .bottomRight
            ⟨0, 0, 500, 50⟩ 49 5).h : ℚ)) := by
  have hout : resizeFromCorner 50 10 ⟨0, 0, 10000, 10000⟩ .bottomRight
      ⟨0, 0, 500, 50⟩ 49 5 = ⟨0, 0, 549, 54⟩ := by
    norm_num [resizeFromCorner, constrainToBounds, clampPos, shrinkToBounds,
      minSizeFix, resizeSize, cornerRect, cornerDeltas, pyInt, max_def,
      Rect.right, Rect.bottom]
  refine ⟨hout, ?_⟩
  rw [hout]
  rw [abs_of_nonneg (by norm_num)]
  norm_num [min_def]

/-- C1, amended: for every corner, start rectangle, drag delta, `min_size`
and bounds, if the rectangle returned by `_resize_from_corner` (including
its final `_constrain_to_bounds` pass) has positive height, its
width/height quotient is within `max(ratio, 1) / height` of the target
ratio — equivalently, the `int()`-floored dimension is within one pixel of
its exact ratio-derived value.  The spec's bound `1/min(width, height)`
does not hold (see the counterexample). -/
theorem resize_ratio_bound (ms : Int) (ar : ℚ) (b : Rect) (c : Corner)
    (start : Rect) (dx dy : Int) (har : 0 < ar)
    (hh : 0 < (resizeFromCorner ms ar b c start dx dy).h) :
    |((resizeFromCorner ms ar b c start dx dy).w : ℚ) /
        ((resizeFromCorner ms ar b c start dx dy).h : ℚ) - ar| <
      max ar 1 / ((resizeFromCorner ms ar b c start dx dy).h : ℚ) :=
  goodPair_ratio har hh (resizeFromCorner_good ms ar b c start dx dy)

/-- Witness for `resize_ratio_bound`: a top-left resize of the
`300 × 30` box at ratio `10` lands on the `500 × 50` rectangle
(minimum-size regrowth), whose quotient is exact. -/
theorem resize_ratio_bound_witness :
    ((0 : ℚ) < 10 ∧
      0 < (resizeFromCorner 50 10 ⟨0, 0, 10000, 10000⟩ .topLeft
            ⟨5000, 5000, 300, 30⟩ (-9) (-2)).h) ∧
    |((resizeFromCorner 50 10 ⟨0, 0, 10000, 10000⟩ .topLeft
          ⟨5000, 5000, 300, 30⟩ (-9) (-2)).w : ℚ) /
        ((resizeFromCorner 50 10 ⟨0, 0, 10000, 10000⟩ .topLeft
          ⟨5000, 5000, 300, 30⟩ (-9) (-2)).h : ℚ) - 10| <
      max (10 : ℚ) 1 /
        ((resizeFromCorner 50 10 ⟨0, 0, 10000, 10000⟩ .topLeft
          ⟨5000, 5000, 300, 30⟩ (-9) (-2)).h : ℚ) :=
  have hpos : 0 < (resizeFromCorner 50 10 ⟨0, 0, 10000, 10000⟩ .topLeft
      ⟨5000, 5000, 300, 30⟩ (-9) (-2)).h := by
    norm_num [resizeFromCorner, constrainToBounds, clampPos, shrinkToBounds,
      minSizeFix, resizeSize, cornerRect, cornerDeltas, pyInt, max_def,
      Rect.right, Rect.bottom]
  ⟨⟨by norm_num, hpos⟩,
    resize_ratio_bound 50 10 ⟨0, 0, 10000, 10000⟩ .topLeft
      ⟨5000, 5000, 300, 30⟩ (-9) (-2) (by norm_num) hpos⟩

/-! ### C2: bounds containment of gesture outputs -/

/-- C2: the containment claim fails on the code.  Translating the
full-bounds `100 × 100` box right by `5` inside bounds `(0, 0, 100, 100)`
yields `(-1, 0, 100, 100)`, one pixel outside the left edge — the clamp
`moveLeft(bounds.right() - width)` is off by one with Qt's
`right() = x + w - 1` — and a bottom-right resize of `(10, 10, 95, 95)` by
`(20, 20)` in the same bounds yields `(-1, -1, 100, 100)`.  Neither gesture
output is contained in the bounds, contradicting the code's own comment
"ensure rectangle stays fully within image area". -/
theorem gesture_escapes_bounds :
    translateGesture ⟨0, 0, 100, 100⟩ ⟨0, 0, 100, 100⟩ 5 0 =
      ⟨-1, 0, 100, 100⟩ ∧
    ¬ containedIn (translateGesture ⟨0, 0, 100, 100⟩ ⟨0, 0, 100, 100⟩ 5 0)
        ⟨0, 0, 100, 100⟩ ∧
    resizeFromCorner 50 1 ⟨0, 0, 100, 100⟩ .bottomRight
        ⟨10, 10, 95, 95⟩ 20 20 = ⟨-1, -1, 100, 100⟩ ∧
    ¬ containedIn (resizeFromCorner 50 1 ⟨0, 0, 100, 100⟩ .bottomRight
        ⟨10, 10, 95, 95⟩ 20 20) ⟨0, 0, 100, 100⟩ := by
  have ht : translateGesture ⟨0, 0, 100, 100⟩ ⟨0, 0, 100, 100⟩ 5 0 =
      ⟨-1, 0, 100, 100⟩ := by
    norm_num [translateGesture, clampPos, Rect.right, Rect.bottom]
  have hr : resizeFromCorner 50 1 ⟨0, 0, 100, 100⟩ .bottomRight
      ⟨10, 10, 95, 95⟩ 20 20 = ⟨-1, -1, 100, 100⟩ := by
    norm_num [resizeFromCorner, constrainToBounds, clampPos, shrinkToBounds,
      minSizeFix, resizeSize, cornerRect, cornerDeltas, pyInt, max_def,
      Rect.right, Rect.bottom]
  refine ⟨ht, ?_, hr, ?_⟩
  · rw [ht]; norm_num [containedIn]
  · rw [hr]; norm_num [containedIn]

/-! ### C3: the largest-fit computation -/

/-- C3: `get_crop_dimensions` returns the fit-by-width candidate
`(iw, int(iw/ratio))` exactly when that candidate's height does not exceed
`ih`, and the fit-by-height candidate `(int(ih*ratio), ih)` otherwise; the
result never exceeds the image dimensions, one dimension is the `int()`
rounding of the other through the ratio, and for a `4000 × 3000` image at
ratio `3/2` the result is `(4000, 2666)`. -/
theorem get_crop_dimensions_spec (ar : ℚ) (iw ih : Int)
    (har : 0 < ar) (hiw : 0 < iw) (hih : 0 < ih) :
    (pyInt ((iw : ℚ) / ar) ≤ ih →
      get_crop_dimensions ar iw ih = (iw, pyInt ((iw : ℚ) / ar))) ∧
    (ih < pyInt ((iw : ℚ) / ar) →
      get_crop_dimensions ar iw ih = (pyInt ((ih : ℚ) * ar), ih)) ∧
    (get_crop_dimensions ar iw ih).1 ≤ iw ∧
    (get_crop_dimensions ar iw ih).2 ≤ ih ∧
    GoodPair ar (get_crop_dimensions ar iw ih).1
      (get_crop_dimensions ar iw ih).2 ∧
    get_crop_dimensions (3 / 2) 4000 3000 = (4000, 2666) := by
  have hconc : get_crop_dimensions (3 / 2) 4000 3000 = (4000, 2666) := by
    norm_num [get_crop_dimensions, pyInt]
  have hiwq : (0 : ℚ) < (iw : ℚ) := by exact_mod_cast hiw
  have hihq : (0 : ℚ) < (ih : ℚ) := by exact_mod_cast hih
  by_cases hc : pyInt ((iw : ℚ) / ar) ≤ ih
  · refine ⟨fun _ => ?_, fun hlt => absurd hc (not_le.mpr hlt), ?_, ?_, ?_, hconc⟩
    · simp [get_crop_dimensions, hc]
    · simp [get_crop_dimensions, hc]
    · simp [get_crop_dimensions, hc]
    · simp only [get_crop_dimensions, if_pos hc]
      left; rfl
  · have hdiv : (0 : ℚ) ≤ (iw : ℚ) / ar := le_of_lt (div_pos hiwq har)
    have hfl : pyInt ((iw : ℚ) / ar) = ⌊(iw : ℚ) / ar⌋ := pyInt_of_nonneg hdiv
    have hgt : (ih : ℚ) < (iw : ℚ) / ar := by
      have h2 : ih < ⌊(iw : ℚ) / ar⌋ := hfl ▸ not_le.mp hc
      exact lt_of_lt_of_le (by exact_mod_cast h2) (Int.floor_le _)
    have hlt : (ih : ℚ) * ar < (iw : ℚ) := (lt_div_iff₀ har).mp hgt
    have hw : pyInt ((ih : ℚ) * ar) ≤ iw := by
      rw [pyInt_of_nonneg (le_of_lt (mul_pos hihq har))]
      have h1 : ((⌊(ih : ℚ) * ar⌋ : Int) : ℚ) ≤ (ih : ℚ) * ar := Int.floor_le _
      have : ((⌊(ih : ℚ) * ar⌋ : Int) : ℚ) < (iw : ℚ) := lt_of_le_of_lt h1 hlt
      exact le_of_lt (by exact_mod_cast this)
    refine ⟨fun hle => absurd hle hc, fun _ => ?_, ?_, ?_, ?_, hconc⟩
    · simp [get_crop_dimensions, hc]
    · simpa [get_crop_dimensions, hc] using hw
    · simp [get_crop_dimensions, hc]
    · simp only [get_crop_dimensions, if_neg hc]
      right; rfl

/-- Witness for `get_crop_dimensions_spec` at the spec's concrete example. -/
theorem get_crop_dimensions_spec_witness :
    ((0 : ℚ) < 3 / 2 ∧ (0 : Int) < 4000 ∧ (0 : Int) < 3000) ∧
    get_crop_dimensions (3 / 2) 4000 3000 = (4000, 2666) :=
  ⟨⟨by norm_num, by decide, by decide⟩,
    (get_crop_dimensions_spec (3 / 2) 4000 3000
      (by norm_num) (by decide) (by decide)).2.2.2.2.2⟩

/-! ### C4: coordinate round-trip between source and preview space -/

/-- One coordinate through the preview round trip: scaling down by `t/i`
with `int()`, then back up by `i/t` with `int()`, never overshoots and loses
less than `i/t + 1` (one preview pixel covers `i/t` source pixels). -/
lemma scale_roundtrip_bound (x i t : Int) (hx : 0 ≤ x) (hi : 0 < i) (ht : 0 < t) :
    pyInt ((pyInt ((x : ℚ) * ((t : ℚ) / (i : ℚ))) : ℚ) * ((i : ℚ) / (t : ℚ))) ≤ x ∧
    (x : ℚ) -
        (pyInt ((pyInt ((x : ℚ) * ((t : ℚ) / (i : ℚ))) : ℚ) * ((i : ℚ) / (t : ℚ))) : ℚ) <
      (i : ℚ) / (t : ℚ) + 1 := by
  have hiq : (0 : ℚ) < (i : ℚ) := by exact_mod_cast hi
  have htq : (0 : ℚ) < (t : ℚ) := by exact_mod_cast ht
  have hxq : (0 : ℚ) ≤ (x : ℚ) := by exact_mod_cast hx
  have hs : (0 : ℚ) < (t : ℚ) / (i : ℚ) := div_pos htq hiq
  have hs' : (0 : ℚ) < (i : ℚ) / (t : ℚ) := div_pos hiq htq
  have hq0 : 0 ≤ (x : ℚ) * ((t : ℚ) / (i : ℚ)) := mul_nonneg hxq (le_of_lt hs)
  rw [pyInt_of_nonneg hq0]
  have ha0 : (0 : ℚ) ≤ ((⌊(x : ℚ) * ((t : ℚ) / (i : ℚ))⌋ : Int) : ℚ) := by
    exact_mod_cast Int.floor_nonneg.mpr hq0
  have hu0 : 0 ≤ ((⌊(x : ℚ) * ((t : ℚ) / (i : ℚ))⌋ : Int) : ℚ) * ((i : ℚ) / (t : ℚ)) :=
    mul_nonneg ha0 (le_of_lt hs')
  rw [pyInt_of_nonneg hu0]
  have hback : ((x : ℚ) * ((t : ℚ) / (i : ℚ))) * ((i : ℚ) / (t : ℚ)) = (x : ℚ) := by
    field_simp
  have hale : ((⌊(x : ℚ) * ((t : ℚ) / (i : ℚ))⌋ : Int) : ℚ) ≤
      (x : ℚ) * ((t : ℚ) / (i : ℚ)) := Int.floor_le _
  have halt : (x : ℚ) * ((t : ℚ) / (i : ℚ)) <
      ((⌊(x : ℚ) * ((t : ℚ) / (i : ℚ))⌋ : Int) : ℚ) + 1 := Int.lt_floor_add_one _
  constructor
  · have h1 : ((⌊(x : ℚ) * ((t : ℚ) / (i : ℚ))⌋ : Int) : ℚ) * ((i : ℚ) / (t : ℚ)) ≤
        (x : ℚ) := by
      calc ((⌊(x : ℚ) * ((t : ℚ) / (i : ℚ))⌋ : Int) : ℚ) * ((i : ℚ) / (t : ℚ))
          ≤ ((x : ℚ) * ((t : ℚ) / (i : ℚ))) * ((i : ℚ) / (t : ℚ)) :=
            mul_le_mul_of_nonneg_right hale (le_of_lt hs')
        _ = (x : ℚ) := hback
    calc ⌊((⌊(x : ℚ) * ((t : ℚ) / (i : ℚ))⌋ : Int) : ℚ) * ((i : ℚ) / (t : ℚ))⌋
        ≤ ⌊(x : ℚ)⌋ := Int.floor_le_floor h1
      _ = x := Int.floor_intCast x
  · have h2 : (x : ℚ) <
        ((⌊(x : ℚ) * ((t : ℚ) / (i : ℚ))⌋ : Int) : ℚ) * ((i : ℚ) / (t : ℚ)) +
          (i : ℚ) / (t : ℚ) := by
      calc (x : ℚ) = ((x : ℚ) * ((t : ℚ) / (i : ℚ))) * ((i : ℚ) / (t : ℚ)) := hback.symm
        _ < (((⌊(x : ℚ) * ((t : ℚ) / (i : ℚ))⌋ : Int) : ℚ) + 1) * ((i : ℚ) / (t : ℚ)) :=
            mul_lt_mul_of_pos_right halt hs'
        _ = ((⌊(x : ℚ) * ((t : ℚ) / (i : ℚ))⌋ : Int) : ℚ) * ((i : ℚ) / (t : ℚ)) +
            (i : ℚ) / (t : ℚ) := by ring
    have h3 := Int.sub_one_lt_floor
      (((⌊(x : ℚ) * ((t : ℚ) / (i : ℚ))⌋ : Int) : ℚ) * ((i : ℚ) / (t : ℚ)))
    linarith

/-- C4, counterexample: with a 4000 × 3000 source shown as a 200 × 150
thumbnail (scale 1/20, no letterbox offset), the box `(19, 19, 100, 100)` —
fully inside the source bounds — maps to overlay coordinates and back to
`(0, 0, 100, 100)`: the `x` and `y` fields each differ by 19 pixels from the
original, far beyond the claimed 1 pixel per field. -/
theorem roundtrip_claim_false :
    save_crop_from_overlay 4000 3000 200 150 0 0
        (apply_crop_box_to_overlay 4000 3000 200 150 0 0 ⟨19, 19, 100, 100⟩) =
      ⟨0, 0, 100, 100⟩ ∧
    ¬ (|(save_crop_from_overlay 4000 3000 200 150 0 0
          (apply_crop_box_to_overlay 4000 3000 200 150 0 0 ⟨19, 19, 100, 100⟩)).x -
        (19 : Int)| ≤ 1) := by
  have h : save_crop_from_overlay 4000 3000 200 150 0 0
      (apply_crop_box_to_overlay 4000 3000 200 150 0 0 ⟨19, 19, 100, 100⟩) =
      ⟨0, 0, 100, 100⟩ := by
    norm_num [save_crop_from_overlay, apply_crop_box_to_overlay, pyInt]
  refine ⟨h, ?_⟩
  rw [h]
  norm_num

/-- C4 (amended): for a rectangle with nonnegative fields and positive
source/thumbnail dimensions, the round trip
`save_crop_from_overlay ∘ apply_crop_box_to_overlay` never overshoots any
field and loses less than `scale + 1` pixels per field, where `scale` is the
source/thumbnail ratio of the corresponding axis (`iw/tw` for `x` and
`width`, `ih/th` for `y` and `height`); the spec's 1-pixel bound holds only
when the preview is not downscaled. -/
theorem roundtrip_bound (iw ih tw th px py : Int) (b : CropBox)
    (hiw : 0 < iw) (hih : 0 < ih) (htw : 0 < tw) (hth : 0 < th)
    (hx : 0 ≤ b.x) (hy : 0 ≤ b.y) (hw : 0 ≤ b.width) (hh : 0 ≤ b.height) :
    ((save_crop_from_overlay iw ih tw th px py
        (apply_crop_box_to_overlay iw ih tw th px py b)).x ≤ b.x ∧
      (b.x : ℚ) - ((save_crop_from_overlay iw ih tw th px py
        (apply_crop_box_to_overlay iw ih tw th px py b)).x : ℚ) <
        (iw : ℚ) / (tw : ℚ) + 1) ∧
    ((save_crop_from_overlay iw ih tw th px py
        (apply_crop_box_to_overlay iw ih tw th px py b)).y ≤ b.y ∧
      (b.y : ℚ) - ((save_crop_from_overlay iw ih tw th px py
        (apply_crop_box_to_overlay iw ih tw th px py b)).y : ℚ) <
        (ih : ℚ) / (th : ℚ) + 1) ∧
    ((save_crop_from_overlay iw ih tw th px py
        (apply_crop_box_to_overlay iw ih tw th px py b)).width ≤ b.width ∧
      (b.width : ℚ) - ((save_crop_from_overlay iw ih tw th px py
        (apply_crop_box_to_overlay iw ih tw th px py b)).width : ℚ) <
        (iw : ℚ) / (tw : ℚ) + 1) ∧
    ((save_crop_from_overlay iw ih tw th px py
        (apply_crop_box_to_overlay iw ih tw th px py b)).height ≤ b.height ∧
      (b.height : ℚ) - ((save_crop_from_overlay iw ih tw th px py
        (apply_crop_box_to_overlay iw ih tw th px py b)).height : ℚ) <
        (ih : ℚ) / (th : ℚ) + 1) := by
  have ex : (save_crop_from_overlay iw ih tw th px py
      (apply_crop_box_to_overlay iw ih tw th px py b)).x =
      pyInt ((pyInt ((b.x : ℚ) * ((tw : ℚ) / (iw : ℚ))) : ℚ) *
        ((iw : ℚ) / (tw : ℚ))) := by
    simp [save_crop_from_overlay, apply_crop_box_to_overlay, add_sub_cancel_right]
  have ey : (save_crop_from_overlay iw ih tw th px py
      (apply_crop_box_to_overlay iw ih tw th px py b)).y =
      pyInt ((pyInt ((b.y : ℚ) * ((th : ℚ) / (ih : ℚ))) : ℚ) *
        ((ih : ℚ) / (th : ℚ))) := by
    simp [save_crop_from_overlay, apply_crop_box_to_overlay, add_sub_cancel_right]
  have ew : (save_crop_from_overlay iw ih tw th px py
      (apply_crop_box_to_overlay iw ih tw th px py b)).width =
      pyInt ((pyInt ((b.width : ℚ) * ((tw : ℚ) / (iw : ℚ))) : ℚ) *
        ((iw : ℚ) / (tw : ℚ))) := rfl
  have eh : (save_crop_from_overlay iw ih tw th px py
      (apply_crop_box_to_overlay iw ih tw th px py b)).height =
      pyInt ((pyInt ((b.height : ℚ) * ((th : ℚ) / (ih : ℚ))) : ℚ) *
        ((ih : ℚ) / (th : ℚ))) := rfl
  rw [ex, ey, ew, eh]
  exact ⟨scale_roundtrip_bound b.x iw tw hx hiw htw,
    scale_roundtrip_bound b.y ih th hy hih hth,
    scale_roundtrip_bound b.width iw tw hw hiw htw,
    scale_roundtrip_bound b.height ih th hh hih hth⟩

/-- Witness for `roundtrip_bound` at a letterboxed preview
(`offset (7, 9)`, scale 1/20 both axes). -/
theorem roundtrip_bound_witness :
    ((0 : Int) < 4000 ∧ (0 : Int) < 3000 ∧ (0 : Int) < 200 ∧ (0 : Int) < 150 ∧
      (0 : Int) ≤ 19 ∧ (0 : Int) ≤ 23 ∧ (0 : Int) ≤ 100 ∧ (0 : Int) ≤ 60) ∧
    (save_crop_from_overlay 4000 3000 200 150 7 9
        (apply_crop_box_to_overlay 4000 3000 200 150 7 9 ⟨19, 23, 100, 60⟩)).x ≤ 19 :=
  ⟨⟨by decide, by decide, by decide, by decide,
    by decide, by decide, by decide, by decide⟩,
    (roundtrip_bound 4000 3000 200 150 7 9 ⟨19, 23, 100, 60⟩
      (by decide) (by decide) (by decide) (by decide)
      (by decide) (by decide) (by decide) (by decide)).1.1⟩

/-! ### C8: size-identifier parsing -/

lemma takeWhile_all {p : Char → Bool} {l : List Char} (h : ∀ c ∈ l, p c) :
    l.takeWhile p = l := by
  induction l with
  | nil => rfl
  | cons c l ih =>
    have hc : p c := h c (List.mem_cons_self c l)
    simp only [List.takeWhile_cons, hc, if_true]
    rw [ih fun a ha => h a (List.mem_cons_of_mem c ha)]

lemma takeWhile_middle {p : Char → Bool} {l1 : List Char} {c : Char}
    {l2 : List Char} (h1 : ∀ a ∈ l1, p a) (hc : p c = false) :
    (l1 ++ c :: l2).takeWhile p = l1 ∧ (l1 ++ c :: l2).dropWhile p = c :: l2 := by
  induction l1 with
  | nil => simp [List.takeWhile_cons, List.dropWhile_cons, hc]
  | cons a l1 ih =>
    have ha : p a := h1 a (List.mem_cons_self a l1)
    have hrec := ih fun b hb => h1 b (List.mem_cons_of_mem a hb)
    simp [List.takeWhile_cons, List.dropWhile_cons, ha, hrec.1, hrec.2]

lemma isEmpty_false_of_ne_nil {l : List Char} (h : l ≠ []) : l.isEmpty = false := by
  cases l with
  | nil => exact absurd rfl h
  | cons a l => rfl

/-- C8, counterexample: the string `9x6abc` does not match the spec's
anchored pattern `^\d+x\d+$` (and indeed `validate_size_id` rejects it),
yet `parse_size_ratio` accepts it and returns `3/2` — `re.match` anchors at
the start only, so parsing does not fail "exactly when the string does not
match the anchored pattern". -/
theorem parse_size_tag_claim_false :
    specAnchoredFormat ['9', 'x', '6', 'a', 'b', 'c'] = false ∧
    validate_size_id ['9', 'x', '6', 'a', 'b', 'c'] = false ∧
    parse_size_tag ['9', 'x', '6', 'a', 'b', 'c'] = .ok (3 / 2) := by
  have h : parse_size_tag ['9', 'x', '6', 'a', 'b', 'c'] =
      .ok (((9 : ℕ) : ℚ) / ((6 : ℕ) : ℚ)) := rfl
  refine ⟨by decide, by decide, ?_⟩
  rw [h]
  norm_num

lemma ne_nil_of_isEmpty_false {l : List Char} (h : l.isEmpty = false) :
    l ≠ [] := by
  intro hnil
  rw [hnil] at h
  exact absurd h (by simp)

/-- Evaluating `parse_size_ratio` on any string that decomposes as a digit
run, an `x`/`X`, and a tail whose maximal leading digit run is nonempty:
the format check passes and the result is decided by the parsed height. -/
lemma parse_size_tag_of_decomp {d1 : List Char} {c : Char} {tail : List Char}
    (h1 : d1 ≠ []) (hd1 : ∀ a ∈ d1, a.isDigit)
    (hc : c = 'x' ∨ c = 'X') (h2 : tail.takeWhile Char.isDigit ≠ []) :
    parse_size_tag (d1 ++ c :: tail) =
      if digitsVal (tail.takeWhile Char.isDigit) = 0 then
        .error .degenerateRatio
      else
        .ok ((digitsVal d1 : ℚ) /
          (digitsVal (tail.takeWhile Char.isDigit) : ℚ)) := by
  have hcd : Char.isDigit c = false := by
    rcases hc with rfl | rfl <;> decide
  obtain ⟨ht1, hdr1⟩ := takeWhile_middle hd1 hcd
  unfold parse_size_tag
  rw [ht1, hdr1, isEmpty_false_of_ne_nil h1]
  simp only [Bool.false_eq_true, if_false]
  rw [isEmpty_false_of_ne_nil h2]
  rcases hc with rfl | rfl <;> simp

/-- C8 (amended): a full characterization of `parse_size_ratio`, whose
`re.match` is start-anchored only.  (1) It fails with `InvalidFormat`
exactly when the string does not begin with `\d+[xX]\d+` — trailing junk is
accepted, unlike the spec's fully anchored `^\d+x\d+$`.  (2) On any string
that does begin with the pattern — digit run `d1`, separator `x` or `X`,
maximal digit run `d2`, then `junk` not starting with a digit — it fails
with `DegenerateRatio` exactly when the parsed height is `0`, and otherwise
returns the exact ratio `d1 / d2`; in particular the round trip holds for
every valid pair `(w, h)` with `h > 0`.  Invalid input is never silently
defaulted. -/
theorem parse_size_tag_spec (s d1 d2 junk : List Char) (c : Char) :
    (parse_size_tag s = .error .invalidFormat ↔ ¬ startsWithSizeFormat s) ∧
    (s = d1 ++ c :: (d2 ++ junk) → d1 ≠ [] → d2 ≠ [] →
      (∀ a ∈ d1, a.isDigit) → (∀ a ∈ d2, a.isDigit) →
      (c = 'x' ∨ c = 'X') → (junk.headD 'x').isDigit = false →
      parse_size_tag s =
        if digitsVal d2 = 0 then .error .degenerateRatio
        else .ok ((digitsVal d1 : ℚ) / (digitsVal d2 : ℚ))) := by
  constructor
  · constructor
    · -- InvalidFormat → the pattern is absent
      intro hp hpre
      obtain ⟨e1, c', e2, rest, hs, he1, he2, hde1, hde2, hc'⟩ := hpre
      have htne : (e2 ++ rest).takeWhile Char.isDigit ≠ [] := by
        obtain ⟨b, e2', rfl⟩ : ∃ b e2', e2 = b :: e2' := by
          cases e2 with
          | nil => exact absurd rfl he2
          | cons b e2' => exact ⟨b, e2', rfl⟩
        have hb : Char.isDigit b := hde2 b (List.mem_cons_self b e2')
        simp [List.takeWhile_cons, hb]
      rw [hs, parse_size_tag_of_decomp he1 hde1 hc' htne] at hp
      split at hp <;> simp at hp
    · -- the pattern is absent → InvalidFormat
      intro hnp
      by_contra hp
      apply hnp
      unfold parse_size_tag at hp
      cases he1 : (s.takeWhile Char.isDigit).isEmpty with
      | true => simp [he1] at hp
      | false =>
        cases hdr : s.dropWhile Char.isDigit with
        | nil => simp [he1, hdr] at hp
        | cons c' rest =>
          by_cases hc' : c' = 'x' ∨ c' = 'X'
          · cases he2 : (rest.takeWhile Char.isDigit).isEmpty with
            | true => simp [he1, hdr, hc', he2] at hp
            | false =>
              refine ⟨s.takeWhile Char.isDigit, c',
                rest.takeWhile Char.isDigit, rest.dropWhile Char.isDigit,
                ?_, ne_nil_of_isEmpty_false he1,
                ne_nil_of_isEmpty_false he2,
                fun a ha => List.mem_takeWhile_imp ha,
                fun a ha => List.mem_takeWhile_imp ha, hc'⟩
              calc s = s.takeWhile Char.isDigit ++ s.dropWhile Char.isDigit :=
                    (List.takeWhile_append_dropWhile _ _).symm
                _ = s.takeWhile Char.isDigit ++ c' :: rest := by rw [hdr]
                _ = s.takeWhile Char.isDigit ++ c' ::
                      (rest.takeWhile Char.isDigit ++
                        rest.dropWhile Char.isDigit) := by
                    rw [List.takeWhile_append_dropWhile]
          · simp [he1, hdr, hc'] at hp
  · -- evaluation on a decomposed input with maximal second digit run
    intro hs h1 h2 hd1 hd2 hc hj
    have ht2 : (d2 ++ junk).takeWhile Char.isDigit = d2 := by
      cases junk with
      | nil => simpa using takeWhile_all hd2
      | cons b rest => exact (takeWhile_middle hd2 (by simpa using hj)).1
    have htne : (d2 ++ junk).takeWhile Char.isDigit ≠ [] := by
      rw [ht2]; exact h2
    rw [hs, parse_size_tag_of_decomp h1 hd1 hc htne, ht2]

/-- Witness for `parse_size_tag_spec`: `12X0a` (capital separator, zero
height, trailing junk) parses to `DegenerateRatio`, and the
`InvalidFormat` characterization instantiated at `x6`. -/
theorem parse_size_tag_spec_witness :
    ((['1', '2', 'X', '0', 'a'] : List Char) =
        ['1', '2'] ++ 'X' :: (['0'] ++ ['a']) ∧
      (['1', '2'] : List Char) ≠ [] ∧ (['0'] : List Char) ≠ [] ∧
      (∀ a ∈ (['1', '2'] : List Char), a.isDigit) ∧
      (∀ a ∈ (['0'] : List Char), a.isDigit) ∧
      (('X' : Char) = 'x' ∨ ('X' : Char) = 'X') ∧
      ((['a'] : List Char).headD 'x').isDigit = false) ∧
    parse_size_tag ['1', '2', 'X', '0', 'a'] = .error .degenerateRatio ∧
    (parse_size_tag ['x', '6'] = .error .invalidFormat ↔
      ¬ startsWithSizeFormat ['x', '6']) := by
  refine ⟨⟨by decide, by decide, by decide, by decide, by decide,
    by decide, by decide⟩, ?_, ?_⟩
  · have h := (parse_size_tag_spec ['1', '2', 'X', '0', 'a']
        ['1', '2'] ['0'] ['a'] 'X').2
      (by decide) (by decide) (by decide) (by decide) (by decide)
      (by decide) (by decide)
    rw [h, if_pos (by decide : digitsVal ['0'] = 0)]
  · exact (parse_size_tag_spec ['x', '6'] [] [] [] 'x').1

/-! ### C9: crop-box lifecycle on tag changes -/

/-- C9, counterexample: applying a different size tag through
`ImageItem.set_tags` (the path taken by `MainWindow.on_image_clicked`)
changes `size_tag` but leaves the previously stored `crop_box` in place —
the crop box computed under the old size tag is retained, not cleared. -/
theorem set_tags_keeps_crop_box :
    ((⟨some ['a'], some ['9', 'x', '6'], some ⟨0, 0, 300, 200⟩, false⟩ :
        ImageItem).set_tags (some ['a']) (some ['4', 'x', '6'])).size_tag ≠
      (⟨some ['a'], some ['9', 'x', '6'], some ⟨0, 0, 300, 200⟩, false⟩ :
        ImageItem).size_tag ∧
    ((⟨some ['a'], some ['9', 'x', '6'], some ⟨0, 0, 300, 200⟩, false⟩ :
        ImageItem).set_tags (some ['a']) (some ['4', 'x', '6'])).crop_box =
      some ⟨0, 0, 300, 200⟩ := by
  decide

/-- C9 (amended): `clear_tags` always clears `crop_box`, while `set_tags`
never touches it — so a crop box is cleared when tags are cleared entirely,
but changing `size_tag` to a different value retains the stored crop box
(only image rotation clears it elsewhere). -/
theorem crop_box_lifecycle (it : ImageItem) (album size : Option (List Char)) :
    it.clear_tags.crop_box = none ∧
    (it.set_tags album size).crop_box = it.crop_box := by
  refine ⟨rfl, ?_⟩
  unfold ImageItem.set_tags
  cases album <;> cases size <;> rfl

/-! ### C5 and C10: crop_image output contract -/

/-- C5: whatever crop box (manual or smartcrop) `crop_image` uses, the
output bitmap dimensions are exactly the maximal-fit target dimensions
computed from the source dimensions and the size tag's ratio: the rectangle
contributes position only, never output resolution. -/
theorem crop_image_output_dims (tag : List Char) (iw ih : Int)
    (manual : Option CropBox) (smart : CropBox) (out : SavedOutput)
    (h : crop_image tag iw ih manual smart = some out) :
    some (out.outWidth, out.outHeight) = get_size_dims tag iw ih ∧
    ∀ manual2 smart2 out2, crop_image tag iw ih manual2 smart2 = some out2 →
      (out2.outWidth, out2.outHeight) = (out.outWidth, out.outHeight) := by
  unfold crop_image at h
  cases hd : get_size_dims tag iw ih with
  | none => rw [hd] at h; exact absurd h (by simp)
  | some d =>
    rw [hd] at h
    have hout := Option.some.inj h
    constructor
    · rw [← hout]
    · intro manual2 smart2 out2 h2
      unfold crop_image at h2
      rw [hd] at h2
      have hout2 := Option.some.inj h2
      rw [← hout, ← hout2]

/-- Witness for `crop_image_output_dims`: a manual box drawn much smaller
than the maximal fit (77 × 33) still produces a 4000 × 2666 output for a
4000 × 3000 image tagged 9x6. -/
theorem crop_image_output_dims_witness :
    crop_image ['9', 'x', '6'] 4000 3000 (some ⟨10, 10, 77, 33⟩) ⟨0, 0, 1, 1⟩ =
      some ⟨⟨10, 10, 77, 33⟩, 4000, 2666⟩ ∧
    some ((4000 : Int), (2666 : Int)) =
      get_size_dims ['9', 'x', '6'] 4000 3000 :=
  have hd : get_size_dims ['9', 'x', '6'] 4000 3000 = some (4000, 2666) := by
    have hp : parse_size_tag ['9', 'x', '6'] =
        .ok (((9 : ℕ) : ℚ) / ((6 : ℕ) : ℚ)) := rfl
    unfold get_size_dims
    rw [hp]
    norm_num [get_crop_dimensions, pyInt]
  have hc : crop_image ['9', 'x', '6'] 4000 3000
      (some ⟨10, 10, 77, 33⟩) ⟨0, 0, 1, 1⟩ =
      some ⟨⟨10, 10, 77, 33⟩, 4000, 2666⟩ := by
    unfold crop_image
    rw [hd]
  ⟨hc, (crop_image_output_dims ['9', 'x', '6'] 4000 3000
    (some ⟨10, 10, 77, 33⟩) ⟨0, 0, 1, 1⟩ ⟨⟨10, 10, 77, 33⟩, 4000, 2666⟩ hc).1⟩

lemma okCount_cons (it : BatchItem) (l : List BatchItem) :
    okCount (it :: l) = (if it.ok then 1 else 0) + okCount l := by
  unfold okCount
  cases h : it.ok <;> simp [List.filter_cons, h] <;> omega

lemma okNames_cons (it : BatchItem) (l : List BatchItem) :
    okNames (it :: l) = (if it.ok then [it.name] else []) ++ okNames l := by
  unfold okNames
  cases h : it.ok <;> simp [List.filter_cons, h]

lemma progressOf_length (total : ℕ) (i : ℕ) (l : List BatchItem) :
    (progressOf total i l).length = l.length := by
  induction l generalizing i with
  | nil => rfl
  | cons it rest ih => simp [progressOf, ih]

/-- A run during which the flag is never observed set processes every item:
one progress event per item, one output per successful item, and the
finished signal carries `count + okCount`. -/
lemma runAux_complete (cancel : ℕ → Bool) (total : ℕ) (l : List BatchItem)
    (hnc : ∀ j, cancel j = false) :
    ∀ i count, runAux cancel total l i count =
      ⟨progressOf total i l, okNames l, count + okCount l, false⟩ := by
  induction l with
  | nil =>
    intro i count
    simp [runAux, progressOf, okNames, okCount]
  | cons it rest ih =>
    intro i count
    rw [runAux, if_neg (by simp [hnc i]), ih (i + 1)]
    cases hok : it.ok <;>
      simp [progressOf, okNames_cons, okCount_cons, hok] <;> omega

/-- A run whose flag first reads true at iteration `k < length` stops
there: the first `k` items are fully processed (progress + outputs), the
finished signal carries the successes among them, nothing is written for
the remaining items, and the early-return branch is taken. -/
lemma runAux_cancelled (cancel : ℕ → Bool) (total : ℕ) :
    ∀ (l : List BatchItem) (k i count : ℕ), k < l.length →
      (∀ j, j < k → cancel (i + j) = false) → cancel (i + k) = true →
      runAux cancel total l i count =
        ⟨progressOf total i (l.take k), okNames (l.take k),
          count + okCount (l.take k), true⟩ := by
  intro l
  induction l with
  | nil =>
    intro k i count hk
    exact absurd hk (by simp)
  | cons it rest ih =>
    intro k i count hk hbefore hat
    cases k with
    | zero =>
      have h0 : cancel i = true := by simpa using hat
      simp [runAux, h0, progressOf, okNames, okCount]
    | succ k =>
      have h0 : cancel i = false := by simpa using hbefore 0 (Nat.succ_pos k)
      rw [runAux, if_neg (by simp [h0])]
      rw [ih k (i + 1) (count + if it.ok then 1 else 0)
        (by simpa using hk)
        (fun j hj => by
          have := hbefore (j + 1) (Nat.succ_lt_succ hj)
          simpa [Nat.add_assoc, Nat.add_comm 1 j] using this)
        (by
          have := hat
          simpa [Nat.add_assoc, Nat.add_comm 1 k] using this)]
      cases hok : it.ok <;>
        simp [List.take_succ_cons, progressOf, okNames_cons, okCount_cons, hok] <;>
        omega

/-- C6, counterexample: a run over five items cancelled at iteration 2 and
an uncancelled run over five items of which exactly two succeed emit the
same `finished_signal` payload (2): the worker's result is a bare count
with no distinct cancellation marker (`finished_signal = pyqtSignal(int)`);
only a console print distinguishes the cancelled path. -/
theorem run_result_not_distinct :
    (CropWorker_run (fun i => decide (2 ≤ i))
      [⟨1, true⟩, ⟨2, true⟩, ⟨3, true⟩, ⟨4, true⟩, ⟨5, true⟩]).cancelObserved
        = true ∧
    (CropWorker_run (fun _ => false)
      [⟨1, true⟩, ⟨2, true⟩, ⟨3, false⟩, ⟨4, false⟩, ⟨5, false⟩]).cancelObserved
        = false ∧
    (CropWorker_run (fun i => decide (2 ≤ i))
      [⟨1, true⟩, ⟨2, true⟩, ⟨3, true⟩, ⟨4, true⟩, ⟨5, true⟩]).finished =
      (CropWorker_run (fun _ => false)
        [⟨1, true⟩, ⟨2, true⟩, ⟨3, false⟩, ⟨4, false⟩, ⟨5, false⟩]).finished := by
  decide

/-- C6 (amended): the worker polls the flag once per iteration, before the
item, never mid-item.  If the flag first reads true at iteration `k`, the
run consists of the first `k` items fully processed — their progress
events, their successful outputs, nothing written for the remaining items —
the early-return branch is taken, and the finished signal carries the
number of successes so far (at most `k`).  Cancellation is not marked in
the emitted result (see the counterexample). -/
theorem run_cancellation (cancel : ℕ → Bool) (items : List BatchItem) (k : ℕ)
    (hk : k < items.length) (hbefore : ∀ j, j < k → cancel j = false)
    (hat : cancel k = true) :
    CropWorker_run cancel items =
      ⟨progressOf items.length 0 (items.take k), okNames (items.take k),
        okCount (items.take k), true⟩ ∧
    okCount (items.take k) ≤ k := by
  constructor
  · unfold CropWorker_run
    have h := runAux_cancelled cancel items.length items k 0 0 hk
      (fun j hj => by simpa using hbefore j hj) (by simpa using hat)
    simpa using h
  · calc okCount (items.take k) ≤ (items.take k).length :=
        List.length_filter_le _ _
      _ ≤ k := by simp [List.length_take]

/-- Witness for `run_cancellation`: five all-successful items, flag set
from iteration 2 on — two items processed, `finished = okCount ≤ 2`. -/
theorem run_cancellation_witness :
    ((2 : ℕ) < ([⟨1, true⟩, ⟨2, true⟩, ⟨3, true⟩, ⟨4, true⟩, ⟨5, true⟩] :
        List BatchItem).length ∧
      (∀ j, j < 2 → (fun i => decide (2 ≤ i)) j = false) ∧
      (fun i => decide (2 ≤ i)) 2 = true) ∧
    CropWorker_run (fun i => decide (2 ≤ i))
        [⟨1, true⟩, ⟨2, true⟩, ⟨3, true⟩, ⟨4, true⟩, ⟨5, true⟩] =
      ⟨progressOf ([⟨1, true⟩, ⟨2, true⟩, ⟨3, true⟩, ⟨4, true⟩, ⟨5, true⟩] :
          List BatchItem).length 0
          (([⟨1, true⟩, ⟨2, true⟩, ⟨3, true⟩, ⟨4, true⟩, ⟨5, true⟩] :
            List BatchItem).take 2),
        okNames (([⟨1, true⟩, ⟨2, true⟩, ⟨3, true⟩, ⟨4, true⟩, ⟨5, true⟩] :
          List BatchItem).take 2),
        okCount (([⟨1, true⟩, ⟨2, true⟩, ⟨3, true⟩, ⟨4, true⟩, ⟨5, true⟩] :
          List BatchItem).take 2), true⟩ ∧
    okCount (([⟨1, true⟩, ⟨2, true⟩, ⟨3, true⟩, ⟨4, true⟩, ⟨5, true⟩] :
      List BatchItem).take 2) ≤ 2 :=
  have h := run_cancellation (fun i => decide (2 ≤ i))
    [⟨1, true⟩, ⟨2, true⟩, ⟨3, true⟩, ⟨4, true⟩, ⟨5, true⟩] 2
    (by decide) (by decide) (by decide)
  ⟨⟨by decide, by decide, by decide⟩, h.1, h.2⟩

/-- C7, counterexample: two uncancelled five-item runs — one where item 3
fails, one where item 2 fails — emit exactly the same signals (identical
progress sequence, identical `finished = 4`, no cancellation) even though
their failed-item sets differ, as witnessed by the different files written:
the worker's result reports no list of failed items. -/
theorem run_result_no_failed_list :
    (CropWorker_run (fun _ => false)
      [⟨1, true⟩, ⟨2, true⟩, ⟨3, false⟩, ⟨4, true⟩, ⟨5, true⟩]).finished = 4 ∧
    (CropWorker_run (fun _ => false)
      [⟨1, true⟩, ⟨2, false⟩, ⟨3, true⟩, ⟨4, true⟩, ⟨5, true⟩]).finished = 4 ∧
    (CropWorker_run (fun _ => false)
      [⟨1, true⟩, ⟨2, true⟩, ⟨3, false⟩, ⟨4, true⟩, ⟨5, true⟩]).progress =
      (CropWorker_run (fun _ => false)
        [⟨1, true⟩, ⟨2, false⟩, ⟨3, true⟩, ⟨4, true⟩, ⟨5, true⟩]).progress ∧
    (CropWorker_run (fun _ => false)
      [⟨1, true⟩, ⟨2, true⟩, ⟨3, false⟩, ⟨4, true⟩, ⟨5, true⟩]).cancelObserved =
      (CropWorker_run (fun _ => false)
        [⟨1, true⟩, ⟨2, false⟩, ⟨3, true⟩, ⟨4, true⟩, ⟨5, true⟩]).cancelObserved ∧
    (CropWorker_run (fun _ => false)
      [⟨1, true⟩, ⟨2, true⟩, ⟨3, false⟩, ⟨4, true⟩, ⟨5, true⟩]).written ≠
      (CropWorker_run (fun _ => false)
        [⟨1, true⟩, ⟨2, false⟩, ⟨3, true⟩, ⟨4, true⟩, ⟨5, true⟩]).written := by
  decide

/-- C7 (amended): in an uncancelled run every item is processed: a failed
item never aborts the batch, a progress event is emitted for every item
regardless of success, exactly the successful items' outputs are written,
and the finished signal carries the success count — but that bare count is
the whole reported result; no failed-item list is recorded or emitted (see
the counterexample). -/
theorem batch_isolation (cancel : ℕ → Bool) (items : List BatchItem)
    (hnc : ∀ j, cancel j = false) :
    CropWorker_run cancel items =
      ⟨progressOf items.length 0 items, okNames items, okCount items, false⟩ ∧
    (progressOf items.length 0 items).length = items.length := by
  constructor
  · unfold CropWorker_run
    have h := runAux_complete cancel items.length items hnc 0 0
    simpa using h
  · exact progressOf_length items.length 0 items

/-- Witness for `batch_isolation`: five items with item 3 undecodable —
all five progress events fire and the finished count is 4. -/
theorem batch_isolation_witness :
    (∀ j : ℕ, (fun _ : ℕ => false) j = false) ∧
    CropWorker_run (fun _ => false)
        [⟨1, true⟩, ⟨2, true⟩, ⟨3, false⟩, ⟨4, true⟩, ⟨5, true⟩] =
      ⟨progressOf ([⟨1, true⟩, ⟨2, true⟩, ⟨3, false⟩, ⟨4, true⟩, ⟨5, true⟩] :
          List BatchItem).length 0
          [⟨1, true⟩, ⟨2, true⟩, ⟨3, false⟩, ⟨4, true⟩, ⟨5, true⟩],
        okNames [⟨1, true⟩, ⟨2, true⟩, ⟨3, false⟩, ⟨4, true⟩, ⟨5, true⟩],
        okCount [⟨1, true⟩, ⟨2, true⟩, ⟨3, false⟩, ⟨4, true⟩, ⟨5, true⟩],
        false⟩ ∧
    okCount [⟨1, true⟩, ⟨2, true⟩, ⟨3, false⟩, ⟨4, true⟩, ⟨5, true⟩] = 4 :=
  ⟨fun _ => rfl,
    (batch_isolation (fun _ => false)
      [⟨1, true⟩, ⟨2, true⟩, ⟨3, false⟩, ⟨4, true⟩, ⟨5, true⟩]
      (fun _ => rfl)).1,
    by decide⟩

end AlbumStudio
